import Mathlib

/-!
# Verification of the calver-release decision engine

A shallow embedding of the calver-release core (`src/release-core.js`,
`src/config.ts` and the orchestrator module `src/unnamed/part_003`) together with proofs
about the embedded functions.

JavaScript strings are modelled by Lean `String`; the JS string primitives
used by the source (`split`, `includes`, `startsWith`, `indexOf`, `replace`,
lexicographic `<`/`>`, template-literal concatenation, `Number(...)` on digit
strings, number-to-string conversion) are given explicit structural
definitions below so that every embedded function is executable by kernel
reduction.  Filesystem and git reads performed inline by the source
(`package.json` version, `git tag` output, `new Date()`) are lifted to
explicit parameters of the embedded functions, which is the standard shallow
embedding of an inlined I/O read.
-/

namespace CalverRelease

/-! ## JS string primitives -/

/-- Test that `pat` is a prefix of `l` (used for JS `startsWith` and anchored regexes). -/
def listIsPrefix (pat l : List Char) : Bool :=
  match pat, l with
  | [], _ => true
  | _ :: _, [] => false
  | a :: as, b :: bs => a == b && listIsPrefix as bs

/-- Test that `pat` occurs as a contiguous sublist of `l` (JS `String.prototype.includes`). -/
def containsSub (pat : List Char) : List Char → Bool
  | [] => listIsPrefix pat []
  | c :: rest => listIsPrefix pat (c :: rest) || containsSub pat rest

/-- JS `s.includes(pat)`. -/
def jsIncludes (s pat : String) : Bool := containsSub pat.data s.data

/-- JS `s.startsWith(pat)`. -/
def jsStartsWith (s pat : String) : Bool := listIsPrefix pat.data s.data

/-- Split a character list at every occurrence of the character `c`
(JS `s.split(c)` for a one-character separator). -/
def splitOnChar (c : Char) : List Char → List (List Char)
  | [] => [[]]
  | x :: rest =>
    if x == c then [] :: splitOnChar c rest
    else
      match splitOnChar c rest with
      | [] => [[x]]
      | g :: gs => (x :: g) :: gs

/-- JS `s.split('.')`. -/
def jsSplitDot (s : String) : List String := (splitOnChar '.' s.data).map String.mk

/-- JS `s.split('\n')`. -/
def jsSplitNl (s : String) : List String := (splitOnChar '\n' s.data).map String.mk

/-- JS truthiness of `s.trim()`: the string has a non-whitespace character. -/
def hasNonWS (s : String) : Bool := s.data.any (fun c => !(c == ' ' || c == '\t' || c == '\r' || c == '\n'))

/-- Strict lexicographic comparison of character lists by code point
(JS `<` / `>` on strings, restricted to the BMP strings the source compares). -/
def lexLtChars : List Char → List Char → Bool
  | [], [] => false
  | [], _ :: _ => true
  | _ :: _, [] => false
  | a :: as, b :: bs =>
    if a.toNat < b.toNat then true
    else if b.toNat < a.toNat then false
    else lexLtChars as bs

/-- JS `a < b` on strings. -/
def jsStrLt (a b : String) : Bool := lexLtChars a.data b.data

/-- JS `s.replace(pat, repl)`: replace the first occurrence of `pat`, if any. -/
def replaceFirstChars (cs : List Char) (pat repl : List Char) : List Char :=
  match cs with
  | [] => if listIsPrefix pat [] then repl else []
  | c :: rest =>
    if listIsPrefix pat (c :: rest) then repl ++ (c :: rest).drop pat.length
    else c :: replaceFirstChars rest pat repl

/-- JS `s.replace(pat, repl)` on strings. -/
def jsReplaceFirst (s pat repl : String) : String :=
  ⟨replaceFirstChars s.data pat.data repl.data⟩

/-- Node `path.basename`: the last nonempty `/`-separated segment. -/
def pathBasename (p : String) : String :=
  ((splitOnChar '/' p.data).map String.mk).filter (· != "") |>.getLastD ""

/-- Value of a digit string read in base 10, JS `Number(...)` on the digit
strings the source feeds it (and `0` on the empty string, as in JS). -/
def digitsVal (cs : List Char) : Nat := cs.foldl (fun a c => a * 10 + (c.toNat - 48)) 0

/-- The decimal digit character for `d < 10`. -/
def digitChar (d : Nat) : Char := Char.ofNat (48 + d)

/-- Fuelled decimal rendering of a natural number, used below with fuel `n+1`,
which `natToStrCore_spec` proves sufficient. -/
def natToStrCore : Nat → Nat → List Char
  | 0, _ => []
  | fuel + 1, n => if n < 10 then [digitChar n] else natToStrCore fuel (n / 10) ++ [digitChar (n % 10)]

/-- JS number-to-string conversion for naturals, as performed by template
literals such as `` `${patch + 1}` `` in the source. -/
def natToStr (n : Nat) : String := ⟨natToStrCore (n + 1) n⟩

/-! ## Configuration (`src/config.ts`) and version-format resolution
(`determineVersionFormat`, `src/release-core.js`) -/

/-- A plugin entry of the configuration: the source accepts a plugin name
string, an array whose head is the name, or an object with a `path` field
(`determineVersionFormat`); anything else (e.g. `null`) is `other`. -/
inductive PluginDef where
  | str (s : String)
  | arr (head : String)
  | obj (path : Option String)
  | other
deriving DecidableEq, Repr

/-- The configuration fields consumed by the embedded core.  `none` models a
JS `undefined` field.  `dryRun`/`branches` are carried to state that the
version resolver does not depend on them. -/
structure Options where
  versionFormat : Option String := none
  plugins : Option (List PluginDef) := none
  autoUpdateMonth : Bool := false
  dryRun : Bool := false
  branches : List String := []
deriving DecidableEq, Repr

/-- One plugin entry "contains the registry-publishing marker":
`plugin.includes('npm')` resp. `plugin[0].includes('npm')` resp.
`plugin.path && plugin.path.includes('npm')`. -/
def pluginMentionsNpm : PluginDef → Bool
  | .str s => jsIncludes s "npm"
  | .arr head => jsIncludes head "npm"
  | .obj (some p) => if p == "" then false else jsIncludes p "npm"
  | .obj none => false
  | .other => false

/-- The plugin-scan fallback of `determineVersionFormat`: three-part iff some
plugin entry mentions `npm`, else the four-part default. -/
def determineVersionFormatAuto (options : Options) : String :=
  match options.plugins with
  | some ps => if ps.any pluginMentionsNpm then "YY.MM.PATCH" else "YY.MM.MINOR.PATCH"
  | none => "YY.MM.MINOR.PATCH"

/-- Embedding of `determineVersionFormat` (`src/release-core.js` lines 1094-1122): an
explicit non-`"auto"` (and truthy) setting wins; otherwise the plugin scan
decides. -/
def determineVersionFormat (options : Options) : String :=
  match options.versionFormat with
  | some vf =>
    if vf != "" && vf != "auto" then vf
    else determineVersionFormatAuto options
  | none => determineVersionFormatAuto options

/-- The default plugin list of `getConfig` (`src/config.ts` lines 24-32). -/
def defaultPlugins : List PluginDef :=
  [.str "@calver-release/commit-analyzer",
   .str "@calver-release/release-notes-generator",
   .str "@calver-release/changelog",
   .str "@calver-release/npm",
   .str "@calver-release/git",
   .str "@calver-release/gitlab",
   .str "@calver-release/github"]

/-- The `defaults` record of `getConfig` (`src/config.ts` lines 15-33),
restricted to the fields the embedded core consumes.  `versionFormat` is not
among the defaults, i.e. it is left unset. -/
def defaultConfig : Options :=
  { versionFormat := none
    plugins := some defaultPlugins
    autoUpdateMonth := false
    dryRun := false
    branches := ["main", "master"] }

/-! ## Version resolver (`generateCalVerVersion`, `src/release-core.js`
lines 942-1092)

The source reads the declared version from `package.json`, the tag list from
`git tag -l --sort=-version:refname` and the current date from `new Date()`;
these inline reads become the parameters `packageJsonVersion`, `tagOutput`
and `now` of the embedding. -/

/-- The release type computed by the commit classifier. -/
inductive ReleaseType where
  | major
  | minor
  | patch
deriving DecidableEq, Repr

/-- The CalVer shape test `/^\d{2}\.\d{2}\.\d+(\.\d+)?$/` used for declared
versions and extracted tag versions. -/
def isCalVerCore (s : String) : Bool :=
  match jsSplitDot s with
  | [y, m, p] =>
    y.data.length == 2 && y.data.all Char.isDigit &&
    m.data.length == 2 && m.data.all Char.isDigit &&
    !p.data.isEmpty && p.data.all Char.isDigit
  | [y, m, mi, p] =>
    y.data.length == 2 && y.data.all Char.isDigit &&
    m.data.length == 2 && m.data.all Char.isDigit &&
    !mi.data.isEmpty && mi.data.all Char.isDigit &&
    !p.data.isEmpty && p.data.all Char.isDigit
  | _ => false

/-- The package name `packagePath === '.' ? '' : path.basename(packagePath)`. -/
def packageNameOf (packagePath : String) : String :=
  if packagePath == "." then "" else pathBasename packagePath

/-- The per-tag filter of the tag extraction: scoped packages match
`-<name>-release` tags, the unscoped package matches
`/^v-\d{2}\.\d{2}\.\d+(\.\d+)?$/`. -/
def tagMatchesPackage (packageName tag : String) : Bool :=
  if packageName != "" then jsIncludes tag ("-" ++ packageName ++ "-release")
  else jsStartsWith tag "v-" && isCalVerCore ⟨tag.data.drop 2⟩

/-- The version captured by the anchored regex `v-` + CalVer group + `-`
(line 987 of the source), or `''` when the regex does not match: the segment
after `v-` up to the first `-`,
provided such a `-` exists and the segment has the CalVer shape. -/
def extractScopedVersion (tag : String) : String :=
  if jsStartsWith tag "v-" then
    match splitOnChar '-' (tag.data.drop 2) with
    | seg :: _ :: _ => if isCalVerCore ⟨seg⟩ then (⟨seg⟩ : String) else ""
    | _ => ""
  else ""

/-- The version extracted from one matching tag: scoped packages use the
capture group, the unscoped package strips the first `v-`. -/
def extractTagVersion (packageName tag : String) : String :=
  if packageName != "" then extractScopedVersion tag
  else jsReplaceFirst tag "v-" ""

/-- The full `existingTags` pipeline (`src/release-core.js` lines 972-994):
drop blank lines, keep tags of this package, extract the version, keep
CalVer-shaped versions.  `tagOutput` is the git tag list, sorted by version
descending as produced by `git tag -l --sort=-version:refname`. -/
def extractExistingTags (packageName : String) (tagOutput : List String) : List String :=
  ((tagOutput.filter hasNonWS).filter (tagMatchesPackage packageName)
    |>.map (extractTagVersion packageName)).filter isCalVerCore

/-- The year-month prefix `` `${v.split('.')[0]}.${v.split('.')[1]}` `` for
the CalVer-shaped strings the source applies it to. -/
def yearMonthOf (v : String) : String :=
  match jsSplitDot v with
  | y :: m :: _ => y ++ "." ++ m
  | _ => ""

/-- The target year-month together with the `isManualBump` and
`isAutoMonthUpdate` flags (`src/release-core.js` lines 1001-1042). -/
structure TargetResult where
  targetYearMonth : String
  isManualBump : Bool
  isAutoMonthUpdate : Bool
deriving DecidableEq, Repr

/-- Target year-month selection: a parseable declared version contributes its
year-month, auto-rolled forward to the current month when `autoUpdateMonth`
is set and the current month is lexicographically greater; a manual bump is
flagged when no auto-roll happened and the target differs from the year-month
of the newest existing tag; an unparseable declared version falls back to the
current month. -/
def computeTarget (packageJsonVersion : Option String) (autoUpdateMonth : Bool)
    (currentYearMonth : String) (existingTags : List String) : TargetResult :=
  match packageJsonVersion with
  | some v =>
    if isCalVerCore v then
      let packageYearMonth := yearMonthOf v
      if autoUpdateMonth && jsStrLt packageYearMonth currentYearMonth then
        ⟨currentYearMonth, false, true⟩
      else
        let isManualBump :=
          match existingTags with
          | [] => false
          | latestTag :: _ => packageYearMonth != yearMonthOf latestTag
        ⟨packageYearMonth, isManualBump, false⟩
    else ⟨currentYearMonth, false, false⟩
  | none => ⟨currentYearMonth, false, false⟩

/-- The list `currentMonthTags` (`src/release-core.js` lines 1044-1054): existing tags
of the target month whose part count matches the active format exactly. -/
def monthTags (isNpmCompatible : Bool) (targetYearMonth : String)
    (existingTags : List String) : List String :=
  (existingTags.filter (fun tag => jsStartsWith tag targetYearMonth)).filter
    (fun tag => if isNpmCompatible then (jsSplitDot tag).length == 3
                else (jsSplitDot tag).length == 4)

/-- The numeric component `Number(tag.split('.')[i])` for the digit
components the source reads. -/
def numPart (tag : String) (i : Nat) : Nat := digitsVal ((jsSplitDot tag).getD i "").data

/-- The version computation of `generateCalVerVersion` downstream of the
inline reads (`src/release-core.js` lines 1001-1091): first release of the
month on an empty candidate list, manual bump or auto-roll; otherwise an
increment of the newest candidate tag (three-part: the single counter;
four-part: minor+1/patch:=1 for minor or major, patch+1 otherwise). -/
def generateCalVerVersionFrom (releaseType : ReleaseType) (isNpmCompatible : Bool)
    (packageJsonVersion : Option String) (existingTags : List String)
    (autoUpdateMonth : Bool) (currentYearMonth : String) : String :=
  let t := computeTarget packageJsonVersion autoUpdateMonth currentYearMonth existingTags
  let currentMonthTags := monthTags isNpmCompatible t.targetYearMonth existingTags
  if currentMonthTags.isEmpty || t.isManualBump || t.isAutoMonthUpdate then
    if isNpmCompatible then t.targetYearMonth ++ ".1" else t.targetYearMonth ++ ".0.1"
  else
    let latestTag := currentMonthTags.headD ""
    if isNpmCompatible then
      t.targetYearMonth ++ "." ++ natToStr (numPart latestTag 2 + 1)
    else
      let minor := numPart latestTag 2
      let patch := numPart latestTag 3
      if releaseType == .minor || releaseType == .major then
        t.targetYearMonth ++ "." ++ natToStr (minor + 1) ++ "." ++ natToStr 1
      else
        t.targetYearMonth ++ "." ++ natToStr minor ++ "." ++ natToStr (patch + 1)

/-- The current date as read by `new Date()`; `month` is 1-based (the source
computes `getMonth() + 1`). -/
structure DateYM where
  year : Nat
  month : Nat
deriving DecidableEq, Repr

/-- JS `s.slice(-2)`: the last two characters. -/
def sliceLast2 (s : String) : String := ⟨s.data.drop (s.data.length - 2)⟩

/-- JS `s.padStart(2, '0')`. -/
def padStart2 (s : String) : String :=
  if s.data.length ≥ 2 then s else ⟨List.replicate (2 - s.data.length) '0' ++ s.data⟩

/-- The current year-month string
`` `${year.toString().slice(-2)}.${month.toString().padStart(2, '0')}` ``. -/
def currentYearMonthOf (d : DateYM) : String :=
  sliceLast2 (natToStr d.year) ++ "." ++ padStart2 (natToStr d.month)

/-- Embedding of `generateCalVerVersion` (`src/release-core.js` lines 942-1092) with the
inline reads lifted to parameters: `packageJsonVersion` is the version read
from the package descriptor, `tagOutput` the raw descending-sorted git tag
list, `now` the current date. -/
def generateCalVerVersion (releaseType : ReleaseType) (packagePath : String)
    (options : Options) (packageJsonVersion : Option String)
    (tagOutput : List String) (now : DateYM) : String :=
  let isNpmCompatible := determineVersionFormat options == "YY.MM.PATCH"
  let existingTags := extractExistingTags (packageNameOf packagePath) tagOutput
  generateCalVerVersionFrom releaseType isNpmCompatible packageJsonVersion
    existingTags options.autoUpdateMonth (currentYearMonthOf now)

/-! ## Commit classifier (`analyzeCommits`, `src/release-core.js`
lines 865-939) -/

/-- The lines of the commit log: `commitMessages.split('\n')` keeping lines
with a truthy `trim()`. -/
def commitLines (commitMessages : String) : List String :=
  (jsSplitNl commitMessages).filter hasNonWS

/-- Strip the hash prefix of a `git log --oneline` line: the text after the
first space when `indexOf(' ') > 0`, the whole line otherwise. -/
def stripHash (commit : String) : String :=
  match commit.data.findIdx? (· == ' ') with
  | some i => if 0 < i then ⟨commit.data.drop (i + 1)⟩ else commit
  | none => commit

/-- A JS `\w` character. -/
def isWordChar (c : Char) : Bool := c.isAlphanum || c == '_'

/-- The scope captured by the anchored regex "word chars, `(`, one or more
non-`)` chars, `)`, `:`" used by both the classifier and the mapper. -/
def scopeOf (message : String) : Option String :=
  let cs := message.data
  let w := cs.takeWhile isWordChar
  if w.isEmpty then none
  else
    match cs.drop w.length with
    | '(' :: rest =>
      let sc := rest.takeWhile (· != ')')
      if sc.isEmpty then none
      else
        match rest.drop sc.length with
        | ')' :: ':' :: _ => some ⟨sc⟩
        | _ => none
    | _ => none

/-- The anchored regex "`ty`, optional parenthesized scope, `:`"
(e.g. `feat` + optional scope + `:`): either `ty:` is a prefix, or `ty(` is a
prefix and `):` occurs after at least one further character. -/
def matchesTypeOptScope (ty message : String) : Bool :=
  listIsPrefix (ty.data ++ [':']) message.data ||
  (listIsPrefix (ty.data ++ ['(']) message.data &&
    containsSub [')', ':'] (message.data.drop (ty.data.length + 2)))

/-- The breaking-change test of the classification chain:
`message.includes('BREAKING CHANGE')` or the anchored regex "one or more
characters, then `!:`". -/
def breakingMarker (message : String) : Bool :=
  jsIncludes message "BREAKING CHANGE" || containsSub ['!', ':'] (message.data.drop 1)

/-- In monorepo mode a scoped commit is skipped when its scope neither equals
nor contains the package's path basename (`src/release-core.js`
lines 878-888). -/
def scopeSkips (packagePath message : String) : Bool :=
  if packagePath == "." then false
  else
    match scopeOf message with
    | some scope =>
      let pkgName := pathBasename packagePath
      scope != pkgName && !jsIncludes scope pkgName
    | none => false

/-- The mutable analysis accumulator of `analyzeCommits`. -/
structure AnalyzeState where
  hasFeature : Bool := false
  hasFix : Bool := false
  hasBreakingChange : Bool := false
  releaseCommits : List String := []
deriving DecidableEq, Repr

/-- The first-match-wins classification chain plus the separate
breaking-change footer check.  The trailing maintenance-type test of the
source ends the loop iteration after all state updates and therefore has no
effect on the accumulated state; it is omitted here. -/
def classifyCommit (st : AnalyzeState) (message : String) : AnalyzeState :=
  let st :=
    if matchesTypeOptScope "feat" message then
      { st with hasFeature := true, releaseCommits := st.releaseCommits ++ ["✨ " ++ message] }
    else if matchesTypeOptScope "fix" message then
      { st with hasFix := true, releaseCommits := st.releaseCommits ++ ["🐛 " ++ message] }
    else if matchesTypeOptScope "perf" message then
      { st with hasFix := true, releaseCommits := st.releaseCommits ++ ["⚡ " ++ message] }
    else if breakingMarker message then
      { st with hasBreakingChange := true, releaseCommits := st.releaseCommits ++ ["💥 " ++ message] }
    else st
  if jsIncludes message "BREAKING CHANGE:" then { st with hasBreakingChange := true } else st

/-- Processing of one commit line: strip the hash, apply the monorepo scope
filter, classify. -/
def analyzeCommitStep (packagePath : String) (st : AnalyzeState) (commit : String) : AnalyzeState :=
  let message := stripHash commit
  if scopeSkips packagePath message then st else classifyCommit st message

/-- A commit line fires some branch of the classification chain after the
scope filter, i.e. contributes an entry to `releaseCommits`. -/
def qualifiesCommit (packagePath commit : String) : Bool :=
  let message := stripHash commit
  !scopeSkips packagePath message &&
  (matchesTypeOptScope "feat" message || matchesTypeOptScope "fix" message ||
   matchesTypeOptScope "perf" message || breakingMarker message)

/-- The analysis record returned by `analyzeCommits`; the source returns
`null` when no release-worthy commit exists, embedded as `Option`. -/
structure CommitAnalysis where
  shouldRelease : Bool
  releaseType : ReleaseType
  hasBreakingChange : Bool
  hasFeature : Bool
  hasFix : Bool
  releaseCommits : List String
deriving DecidableEq, Repr

/-- Embedding of `analyzeCommits` (`src/release-core.js` lines 865-939). -/
def analyzeCommits (commitMessages : String) (packagePath : String) : Option CommitAnalysis :=
  let st := (commitLines commitMessages).foldl (analyzeCommitStep packagePath) {}
  let shouldRelease :=
    st.hasFeature || st.hasFix || st.hasBreakingChange || st.releaseCommits.length > 0
  if shouldRelease then
    some { shouldRelease := true
           releaseType :=
             if st.hasBreakingChange then .major
             else if st.hasFeature then .minor
             else .patch
           hasBreakingChange := st.hasBreakingChange
           hasFeature := st.hasFeature
           hasFix := st.hasFix
           releaseCommits := st.releaseCommits }
  else none

/-! ## Change-set mapper (`getChangedPackages`, `src/release-core.js`
lines 794-862)

The changed-file list is computed by git in the source and is lifted to the
parameter `changedFiles`; the error path that fails open to the full package
list on a git failure is outside the embedded function. -/

/-- A workspace package as produced by `discoverWorkspaces`. -/
structure Package where
  name : String
  path : String
deriving DecidableEq, Repr

/-- Insertion into the insertion-ordered `changedPackages` set. -/
def addToSet (acc : List Package) (p : Package) : List Package :=
  if p ∈ acc then acc else acc ++ [p]

/-- The package-matching test of the scope pass (`src/release-core.js`
lines 842-846): name contains the scope, or path contains the scope, or the
path basename equals the scope. -/
def scopeMatchesPkg (pkg : Package) (scope : String) : Bool :=
  jsIncludes pkg.name scope || jsIncludes pkg.path scope || pathBasename pkg.path == scope

/-- The file-diff pass: each nonblank changed file is assigned to the first
package whose path is `.` or a directory prefix of the file. -/
def filePass (packages : List Package) (changedFiles : List String) (acc : List Package) :
    List Package :=
  changedFiles.foldl (fun acc file =>
    if hasNonWS file then
      match packages.find? (fun pkg => pkg.path == "." || jsStartsWith file (pkg.path ++ "/")) with
      | some pkg => addToSet acc pkg
      | none => acc
    else acc) acc

/-- The hash-prefix removal of the mapper's scope pass:
`commit.substring(8)` (seven-character short hash plus one space). -/
def dropHash8 (commit : String) : String := ⟨commit.data.drop 8⟩

/-- The commit-scope pass: each scoped commit line adds the first package
matching its scope. -/
def scopePass (packages : List Package) (lines : List String) (acc : List Package) :
    List Package :=
  lines.foldl (fun acc commit =>
    match scopeOf (dropHash8 commit) with
    | some scope =>
      match packages.find? (fun pkg => scopeMatchesPkg pkg scope) with
      | some pkg => addToSet acc pkg
      | none => acc
    | none => acc) acc

/-- Embedding of `getChangedPackages` (`src/release-core.js` lines 794-862): single-package
mode short-circuits; otherwise the file pass and the scope pass accumulate
the changed set, and an empty result fails open to the full list. -/
def getChangedPackages (packages : List Package) (changedFiles : List String)
    (commitMessages : String) : List Package :=
  if packages.length == 1 && (packages.headD ⟨"", ""⟩).name == "root" then packages
  else
    let result := scopePass packages (commitLines commitMessages)
      (filePass packages changedFiles [])
    if result.length > 0 then result else packages

/-! ## Release orchestrator (`calverRelease` and `runPlugins`, `src/index.ts`)

Hooks are modelled by their observable behaviour: an optional raised error
and an optional returned value (`none` models a JS `undefined` return, which
`runPlugins` does not collect).  The analyze stage, whose internals are
embedded separately above, is abstracted to its boolean outcome
`shouldRelease`.  A run produces the ordered trace of hook invocations
(stage, registration index) together with its outcome. -/

/-- An error raised by a hook. -/
abbrev Err := Nat

/-- The lifecycle stages whose hooks `calverRelease` invokes. -/
inductive Stage where
  | verifyConditions
  | verifyRelease
  | generateNotes
  | prepare
  | publish
  | success
  | fail
deriving DecidableEq, Repr

/-- The observable behaviour of one registered hook. -/
structure HookSpec where
  outcome : Option Err := none
  value : Option String := none
deriving DecidableEq, Repr

/-- The per-stage ordered hook lists assembled by `getPlugins`. -/
structure PluginCollection where
  verifyConditions : List HookSpec := []
  verifyRelease : List HookSpec := []
  generateNotes : List HookSpec := []
  prepare : List HookSpec := []
  publish : List HookSpec := []
  success : List HookSpec := []
  fail : List HookSpec := []
deriving DecidableEq, Repr

/-- Embedding of `runPlugins` (`src/unnamed/part_003` lines 240-257 — the orchestrator module, `src/index.ts`) at registration offset `i`:
invoke hooks in order, collect defined results, and rethrow the first error,
stopping the iteration.  Returns the invocation trace, the collected results
and the raised error, if any. -/
def runHooks (stage : Stage) (hooks : List HookSpec) (i : Nat) :
    List (Stage × Nat) × List String × Option Err :=
  match hooks with
  | [] => ([], [], none)
  | h :: rest =>
    match h.outcome with
    | some e => ([(stage, i)], [], some e)
    | none =>
      let (trace, results, err) := runHooks stage rest (i + 1)
      ((stage, i) :: trace,
       (match h.value with | some v => v :: results | none => results),
       err)

/-- The outcome of a run. -/
inductive RunOutcome where
  | noRelease
  | dryRunPreview (notes : String)
  | released
  | failed (e : Err)
deriving DecidableEq, Repr

/-- Index and error of the first hook of the list that raises, if any. -/
def firstFailure : List HookSpec → Option (Nat × Err)
  | [] => none
  | h :: rest =>
    match h.outcome with
    | some e => some (0, e)
    | none => (firstFailure rest).map (fun ke => (ke.1 + 1, ke.2))

/-- The `catch` block of `calverRelease` (`src/unnamed/part_003` lines 136-142): run
the failure hooks through `runPlugins`; a failure hook that raises aborts
that iteration and its error propagates to the caller, otherwise the original
error is rethrown. -/
def failPath (trace : List (Stage × Nat)) (plugins : PluginCollection) (orig : Err) :
    List (Stage × Nat) × RunOutcome :=
  let (failTrace, _, failErr) := runHooks .fail plugins.fail 0
  (trace ++ failTrace, .failed (failErr.getD orig))

/-- Embedding of `calverRelease` (`src/unnamed/part_003` lines 55-143): the sequential stage
pipeline with the dry-run early return after note generation and the failure
path on the first raised error. -/
def calverRelease (dryRun : Bool) (shouldRelease : Bool) (plugins : PluginCollection) :
    List (Stage × Nat) × RunOutcome :=
  let (t1, _, e1) := runHooks .verifyConditions plugins.verifyConditions 0
  match e1 with
  | some e => failPath t1 plugins e
  | none =>
    if !shouldRelease then (t1, .noRelease)
    else
      let (t2, _, e2) := runHooks .verifyRelease plugins.verifyRelease 0
      match e2 with
      | some e => failPath (t1 ++ t2) plugins e
      | none =>
        let (t3, notesResults, e3) := runHooks .generateNotes plugins.generateNotes 0
        match e3 with
        | some e => failPath (t1 ++ t2 ++ t3) plugins e
        | none =>
          let notes := String.intercalate "\n\n" (notesResults.filter (· != ""))
          if dryRun then (t1 ++ t2 ++ t3, .dryRunPreview notes)
          else
            let (t4, _, e4) := runHooks .prepare plugins.prepare 0
            match e4 with
            | some e => failPath (t1 ++ t2 ++ t3 ++ t4) plugins e
            | none =>
              let (t5, _, e5) := runHooks .publish plugins.publish 0
              match e5 with
              | some e => failPath (t1 ++ t2 ++ t3 ++ t4 ++ t5) plugins e
              | none =>
                let (t6, _, e6) := runHooks .success plugins.success 0
                match e6 with
                | some e => failPath (t1 ++ t2 ++ t3 ++ t4 ++ t5 ++ t6) plugins e
                | none => (t1 ++ t2 ++ t3 ++ t4 ++ t5 ++ t6, .released)

/-! ## Auxiliary notions used by the statements -/

/-- The (minor, patch) tuple of a version string of the active format: the
three-part format has the single counter as `patch` component, the four-part
format reads minor and patch. -/
def tagTuple (isNpmCompatible : Bool) (tag : String) : Nat × Nat :=
  if isNpmCompatible then (0, numPart tag 2) else (numPart tag 2, numPart tag 3)

/-- Strict tuple order on (minor, patch): lexicographic. -/
def tupleLt (a b : Nat × Nat) : Prop := a.1 < b.1 ∨ (a.1 = b.1 ∧ a.2 < b.2)

/-- Reflexive tuple order on (minor, patch). -/
def tupleLe (a b : Nat × Nat) : Prop := a.1 < b.1 ∨ (a.1 = b.1 ∧ a.2 ≤ b.2)

instance (a b : Nat × Nat) : Decidable (tupleLt a b) := by
  unfold tupleLt; infer_instance

instance (a b : Nat × Nat) : Decidable (tupleLe a b) := by
  unfold tupleLe; infer_instance

/-- Number of hooks `runPlugins` invokes: all of them, or all up to and
including the first one that raises. -/
def invokedCount (hooks : List HookSpec) : Nat :=
  match firstFailure hooks with
  | some ke => ke.1 + 1
  | none => hooks.length

/-- The packages of Scenario E. -/
def corePkg : Package := ⟨"core", "packages/core"⟩

/-- The packages of Scenario E. -/
def uiPkg : Package := ⟨"ui", "packages/ui"⟩

/-- A package reachable by a scope only through the path-substring clause. -/
def alphaPkg : Package := ⟨"alpha", "packages/alpha"⟩

/-- A second package that matches nothing relevant. -/
def betaPkg : Package := ⟨"beta", "lib/beta"⟩

/-! ## General lemmas -/

theorem string_append_assoc (a b c : String) : a ++ b ++ c = a ++ (b ++ c) := by
  cases a with
  | mk la =>
    cases b with
    | mk lb =>
      cases c with
      | mk lc =>
        show String.mk (la ++ lb ++ lc) = String.mk (la ++ (lb ++ lc))
        rw [List.append_assoc]

theorem listIsPrefix_append_left {p q cs : List Char}
    (h : listIsPrefix (p ++ q) cs = true) : listIsPrefix p cs = true := by
  induction p generalizing cs with
  | nil => rfl
  | cons a as ih =>
    cases cs with
    | nil => simp [listIsPrefix] at h
    | cons b bs =>
      simp only [List.cons_append, listIsPrefix, Bool.and_eq_true] at h ⊢
      exact ⟨h.1, ih h.2⟩

theorem containsSub_append_left {p q cs : List Char}
    (h : containsSub (p ++ q) cs = true) : containsSub p cs = true := by
  induction cs with
  | nil =>
    simp only [containsSub] at h ⊢
    exact listIsPrefix_append_left h
  | cons c rest ih =>
    simp only [containsSub, Bool.or_eq_true] at h ⊢
    cases h with
    | inl h => exact Or.inl (listIsPrefix_append_left h)
    | inr h => exact Or.inr (ih h)

/-! ## Orchestrator lemmas -/

theorem runHooks_stage_eq (s : Stage) (hooks : List HookSpec) (i : Nat) :
    ∀ ev ∈ (runHooks s hooks i).1, ev.1 = s := by
  induction hooks generalizing i with
  | nil => intro ev h; simp [runHooks] at h
  | cons h rest ih =>
    intro ev hev
    simp only [runHooks] at hev
    cases hout : h.outcome with
    | some e => simp [hout] at hev; simp [hev]
    | none =>
      simp only [hout, List.mem_cons] at hev
      cases hev with
      | inl h => simp [h]
      | inr h => exact ih (i + 1) ev h

theorem runHooks_err_eq (s : Stage) (hooks : List HookSpec) (i : Nat) :
    (runHooks s hooks i).2.2 = (firstFailure hooks).map Prod.snd := by
  induction hooks generalizing i with
  | nil => simp [runHooks, firstFailure]
  | cons h rest ih =>
    simp only [runHooks, firstFailure]
    cases hout : h.outcome with
    | some e => simp
    | none => simp only [Option.map_map]; exact ih (i + 1)

theorem invokedCount_cons_none {h : HookSpec} {rest : List HookSpec}
    (hout : h.outcome = none) : invokedCount (h :: rest) = invokedCount rest + 1 := by
  simp only [invokedCount, firstFailure, hout]
  cases firstFailure rest <;> simp

theorem map_range_pair_shift (s : Stage) (i n : Nat) :
    (List.range (n + 1)).map (fun j => (s, i + j)) =
      (s, i) :: (List.range n).map (fun j => (s, i + 1 + j)) := by
  rw [List.range_succ_eq_map, List.map_cons, List.map_map]
  simp only [List.cons.injEq]
  refine ⟨by simp, ?_⟩
  apply List.map_congr_left
  intro j _
  simp only [Function.comp_apply, Prod.mk.injEq, true_and]
  omega

theorem runHooks_trace_eq (s : Stage) (hooks : List HookSpec) (i : Nat) :
    (runHooks s hooks i).1 = (List.range (invokedCount hooks)).map (fun j => (s, i + j)) := by
  induction hooks generalizing i with
  | nil => simp [runHooks, invokedCount, firstFailure]
  | cons h rest ih =>
    cases hout : h.outcome with
    | some e =>
      simp only [runHooks, hout, invokedCount, firstFailure]
      rw [show List.range 1 = [0] from rfl]
      simp
    | none =>
      simp only [runHooks, hout]
      rw [invokedCount_cons_none hout, map_range_pair_shift]
      simp only [List.cons.injEq, true_and]
      exact ih (i + 1)

theorem firstFailure_eq_none {hooks : List HookSpec}
    (h : ∀ hk ∈ hooks, hk.outcome = none) : firstFailure hooks = none := by
  induction hooks with
  | nil => rfl
  | cons hk rest ih =>
    simp only [firstFailure, h hk (List.mem_cons_self hk rest)]
    rw [ih (fun x hx => h x (List.mem_cons_of_mem hk hx))]
    rfl

/-! ## Classifier lemmas -/

theorem classifyCommit_of_no_marker {message : String}
    (hfeat : matchesTypeOptScope "feat" message = false)
    (hfix : matchesTypeOptScope "fix" message = false)
    (hperf : matchesTypeOptScope "perf" message = false)
    (hbrk : breakingMarker message = false)
    (st : AnalyzeState) : classifyCommit st message = st := by
  have hfooter : jsIncludes message "BREAKING CHANGE:" = false := by
    by_contra hne
    have hyes : jsIncludes message "BREAKING CHANGE:" = true := by
      cases hcase : jsIncludes message "BREAKING CHANGE:" with
      | true => rfl
      | false => exact absurd hcase hne
    have hdata : ("BREAKING CHANGE:" : String).data =
        ("BREAKING CHANGE" : String).data ++ [':'] := by decide
    have : jsIncludes message "BREAKING CHANGE" = true := by
      have := hyes
      unfold jsIncludes at this ⊢
      rw [hdata] at this
      exact containsSub_append_left this
    simp [breakingMarker, this] at hbrk
  simp [classifyCommit, hfeat, hfix, hperf, hbrk, hfooter]

theorem analyzeCommitStep_of_not_qualifies {packagePath commit : String}
    (h : qualifiesCommit packagePath commit = false) (st : AnalyzeState) :
    analyzeCommitStep packagePath st commit = st := by
  unfold qualifiesCommit at h
  unfold analyzeCommitStep
  by_cases hskip : scopeSkips packagePath (stripHash commit) = true
  · simp [hskip]
  · have hskip' : scopeSkips packagePath (stripHash commit) = false := by
      cases hcase : scopeSkips packagePath (stripHash commit) with
      | true => exact absurd hcase hskip
      | false => rfl
    simp only [hskip', Bool.not_false, Bool.true_and, Bool.or_eq_false_iff] at h
    simp only [hskip', if_false]
    exact classifyCommit_of_no_marker h.1.1.1 h.1.1.2 h.1.2 h.2 st

theorem classifyCommit_length_of_marker {message : String}
    (h : (matchesTypeOptScope "feat" message || matchesTypeOptScope "fix" message ||
          matchesTypeOptScope "perf" message || breakingMarker message) = true)
    (st : AnalyzeState) :
    (classifyCommit st message).releaseCommits.length = st.releaseCommits.length + 1 := by
  unfold classifyCommit
  by_cases h1 : matchesTypeOptScope "feat" message = true
  · simp [h1]
    split <;> simp
  · simp only [Bool.not_eq_true] at h1
    by_cases h2 : matchesTypeOptScope "fix" message = true
    · simp [h1, h2]
      split <;> simp
    · simp only [Bool.not_eq_true] at h2
      by_cases h3 : matchesTypeOptScope "perf" message = true
      · simp [h1, h2, h3]
        split <;> simp
      · simp only [Bool.not_eq_true] at h3
        have h4 : breakingMarker message = true := by
          simp [h1, h2, h3] at h
          exact h
        simp [h1, h2, h3, h4]

theorem analyzeCommitStep_length (packagePath : String) (st : AnalyzeState) (commit : String) :
    (analyzeCommitStep packagePath st commit).releaseCommits.length =
      st.releaseCommits.length + (if qualifiesCommit packagePath commit then 1 else 0) := by
  by_cases hq : qualifiesCommit packagePath commit = true
  · have hskip : scopeSkips packagePath (stripHash commit) = false := by
      unfold qualifiesCommit at hq
      by_contra hne
      have : scopeSkips packagePath (stripHash commit) = true := by
        cases hcase : scopeSkips packagePath (stripHash commit) with
        | true => rfl
        | false => exact absurd hcase hne
      simp [this] at hq
    have hmark : (matchesTypeOptScope "feat" (stripHash commit) ||
        matchesTypeOptScope "fix" (stripHash commit) ||
        matchesTypeOptScope "perf" (stripHash commit) ||
        breakingMarker (stripHash commit)) = true := by
      unfold qualifiesCommit at hq
      simp only [hskip, Bool.not_false, Bool.true_and] at hq
      exact hq
    unfold analyzeCommitStep
    simp only [hskip, if_false, hq, if_true]
    exact classifyCommit_length_of_marker hmark st
  · have hq' : qualifiesCommit packagePath commit = false := by
      cases hcase : qualifiesCommit packagePath commit with
      | true => exact absurd hcase hq
      | false => rfl
    rw [analyzeCommitStep_of_not_qualifies hq']
    simp [hq']

theorem analyzeFold_length (packagePath : String) (l : List String) (st : AnalyzeState) :
    ((l.foldl (analyzeCommitStep packagePath) st).releaseCommits).length =
      st.releaseCommits.length + l.countP (qualifiesCommit packagePath) := by
  induction l generalizing st with
  | nil => simp
  | cons c rest ih =>
    simp only [List.foldl_cons, List.countP_cons]
    rw [ih, analyzeCommitStep_length]
    by_cases hq : qualifiesCommit packagePath c = true
    · simp [hq]
      omega
    · simp [hq]

theorem analyzeFold_id {packagePath : String} {l : List String}
    (h : ∀ c ∈ l, qualifiesCommit packagePath c = false) (st : AnalyzeState) :
    l.foldl (analyzeCommitStep packagePath) st = st := by
  induction l generalizing st with
  | nil => rfl
  | cons c rest ih =>
    simp only [List.foldl_cons]
    rw [analyzeCommitStep_of_not_qualifies (h c (List.mem_cons_self c rest))]
    exact ih (fun x hx => h x (List.mem_cons_of_mem c hx)) st

/-! ## Mapper lemmas -/

theorem mem_addToSet {acc : List Package} {q pkg : Package}
    (h : pkg ∈ addToSet acc q) : pkg ∈ acc ∨ pkg = q := by
  unfold addToSet at h
  by_cases hq : q ∈ acc
  · simp [hq] at h; exact Or.inl h
  · simp [hq, List.mem_append] at h
    cases h with
    | inl h => exact Or.inl h
    | inr h => exact Or.inr h

theorem scopePass_sound (packages : List Package) (lines : List String)
    (acc : List Package) (pkg : Package) (h : pkg ∈ scopePass packages lines acc) :
    pkg ∈ acc ∨ ∃ c ∈ lines, ∃ scope, scopeOf (dropHash8 c) = some scope ∧
      scopeMatchesPkg pkg scope = true := by
  induction lines generalizing acc with
  | nil => exact Or.inl h
  | cons c rest ih =>
    cases hscope : scopeOf (dropHash8 c) with
    | none =>
      have h2 : pkg ∈ scopePass packages rest acc := by
        simpa [scopePass, List.foldl_cons, hscope] using h
      cases ih _ h2 with
      | inl hmem => exact Or.inl hmem
      | inr hex =>
        obtain ⟨c', hc', w⟩ := hex
        exact Or.inr ⟨c', List.mem_cons_of_mem c hc', w⟩
    | some scope =>
      cases hfind : packages.find? (fun pkg => scopeMatchesPkg pkg scope) with
      | none =>
        have h2 : pkg ∈ scopePass packages rest acc := by
          simpa [scopePass, List.foldl_cons, hscope, hfind] using h
        cases ih _ h2 with
        | inl hmem => exact Or.inl hmem
        | inr hex =>
          obtain ⟨c', hc', w⟩ := hex
          exact Or.inr ⟨c', List.mem_cons_of_mem c hc', w⟩
      | some q =>
        have h2 : pkg ∈ scopePass packages rest (addToSet acc q) := by
          simpa [scopePass, List.foldl_cons, hscope, hfind] using h
        cases ih _ h2 with
        | inl hmem =>
          cases mem_addToSet hmem with
          | inl hacc => exact Or.inl hacc
          | inr heq =>
            subst heq
            refine Or.inr ⟨c, List.mem_cons_self c rest, scope, hscope, ?_⟩
            simpa using List.find?_some hfind
        | inr hex =>
          obtain ⟨c', hc', w⟩ := hex
          exact Or.inr ⟨c', List.mem_cons_of_mem c hc', w⟩

/-! ## Claim theorems -/

/-- C10: with `versionFormat` unset or `"auto"` and the default plugin list,
the version format resolver returns the three-part format `"YY.MM.PATCH"`,
because the default plugin list contains the identifier
`'@calver-release/npm'`, which contains the marker `"npm"`. -/
theorem defaultConfig_uses_three_part_format :
    determineVersionFormat defaultConfig = "YY.MM.PATCH" ∧
    determineVersionFormat { defaultConfig with versionFormat := some "auto" } = "YY.MM.PATCH" ∧
    pluginMentionsNpm (.str "@calver-release/npm") = true ∧
    (.str "@calver-release/npm") ∈ defaultPlugins := by
  decide

/-- C6 (amended): the version resolver flags a manual bump exactly when the
declared version parses as CalVer, no auto month roll occurred (i.e.
`autoUpdateMonth` is disabled or the current year-month is not
lexicographically greater than the declared one), at least one existing tag
is present, and the declared year-month differs from the year-month of the
most recent existing tag.  In particular a manual bump can be flagged even
when `autoUpdateMonth` is enabled. -/
theorem computeTarget_manualBump_iff (pv : Option String) (auto : Bool)
    (cur : String) (tags : List String) :
    (computeTarget pv auto cur tags).isManualBump = true ↔
      ∃ v, pv = some v ∧ isCalVerCore v = true ∧
        (auto && jsStrLt (yearMonthOf v) cur) = false ∧
        tags ≠ [] ∧ yearMonthOf v ≠ yearMonthOf (tags.headD "") := by
  cases pv with
  | none => simp [computeTarget]
  | some v =>
    by_cases hc : isCalVerCore v = true
    · by_cases hauto : (auto && jsStrLt (yearMonthOf v) cur) = true
      · simp [computeTarget, hc, hauto]
        rw [Bool.and_eq_true] at hauto
        intro h1 _
        exact absurd hauto.2 (by rw [h1 hauto.1]; simp)
      · have hauto' : (auto && jsStrLt (yearMonthOf v) cur) = false := by
          cases hcase : auto && jsStrLt (yearMonthOf v) cur with
          | true => exact absurd hcase hauto
          | false => rfl
        cases tags with
        | nil => simp [computeTarget, hc, hauto']
        | cons t ts =>
          simp only [computeTarget, hc, if_true, hauto', Bool.false_eq_true, if_false]
          constructor
          · intro hmb
            refine ⟨v, rfl, hc, hauto', by simp, ?_⟩
            simpa [bne_iff_ne] using hmb
          · rintro ⟨v', hv', -, -, -, hne⟩
            cases hv'
            simpa [bne_iff_ne] using hne
    · have hc' : isCalVerCore v = false := by
        cases hcase : isCalVerCore v with
        | true => exact absurd hcase hc
        | false => rfl
      simp [computeTarget, hc']

/-- C6 (counterexample): with `autoUpdateMonth` enabled, a declared version
`"25.09.0.1"` whose month is ahead of the current month `"25.08"` and an
existing tag for `"25.08"`, the code flags a manual bump — refuting the
claim that a manual bump is never flagged when `autoUpdateMonth` is
enabled. -/
theorem computeTarget_manualBump_with_auto_enabled :
    (computeTarget (some "25.09.0.1") true "25.08" ["25.08.0.5"]).isManualBump = true := by
  decide

/-- C7: the commit classifier returns the distinguished `none` value exactly
when no attributed commit fires the classification chain, and any returned
analysis has `shouldRelease = true` and `releaseType` derived as
major-if-breaking, else minor-if-feature, else patch. -/
theorem analyzeCommits_characterization (commitMessages packagePath : String) :
    ((analyzeCommits commitMessages packagePath = none) ↔
      ∀ c ∈ commitLines commitMessages, qualifiesCommit packagePath c = false) ∧
    (∀ a, analyzeCommits commitMessages packagePath = some a →
      a.shouldRelease = true ∧
      a.releaseType = (if a.hasBreakingChange = true then ReleaseType.major
        else if a.hasFeature = true then ReleaseType.minor else ReleaseType.patch)) := by
  constructor
  · constructor
    · intro hnone c hc
      by_contra hq
      have hq' : qualifiesCommit packagePath c = true := by
        cases hcase : qualifiesCommit packagePath c with
        | true => rfl
        | false => exact absurd hcase hq
      have hcount : 0 < (commitLines commitMessages).countP (qualifiesCommit packagePath) :=
        List.countP_pos_iff.mpr ⟨c, hc, hq'⟩
      have hlen := analyzeFold_length packagePath (commitLines commitMessages) {}
      simp only [analyzeCommits] at hnone
      split at hnone
      · exact absurd hnone (by simp)
      · rename_i hfalse
        rw [Bool.not_eq_true, Bool.or_eq_false_iff] at hfalse
        have hzero := hfalse.2
        rw [decide_eq_false_iff_not, Nat.not_lt, Nat.le_zero] at hzero
        rw [hzero] at hlen
        simp at hlen
        omega
    · intro hall
      unfold analyzeCommits
      rw [analyzeFold_id hall]
      rfl
  · intro a ha
    simp only [analyzeCommits] at ha
    split at ha
    · cases ha
      exact ⟨rfl, rfl⟩
    · exact absurd ha (by simp)

/-- C7 (witness): a log with only a maintenance commit is attributed nowhere
and the classifier returns `none`. -/
theorem analyzeCommits_characterization_witness :
    analyzeCommits "abc1234 docs: update readme" "." = none :=
  (analyzeCommits_characterization "abc1234 docs: update readme" ".").1.mpr (by decide)

theorem trace_stage_eq {s : Stage} {hooks : List HookSpec} {i : Nat}
    {t : List (Stage × Nat)} {r : List String} {e : Option Err}
    (h : runHooks s hooks i = (t, r, e)) : ∀ ev ∈ t, ev.1 = s := by
  have hall := runHooks_stage_eq s hooks i
  rw [h] at hall
  exact hall

theorem err_none_of_all_ok {s : Stage} {hooks : List HookSpec} {i : Nat}
    {t : List (Stage × Nat)} {r : List String} {e : Option Err}
    (h : runHooks s hooks i = (t, r, e)) (hok : ∀ hk ∈ hooks, hk.outcome = none) :
    e = none := by
  have herr := runHooks_err_eq s hooks i
  rw [h, firstFailure_eq_none hok] at herr
  simpa using herr

/-- C1 (counterexample): with one `verifyConditions` hook raising error `7`
and two registered failure hooks of which the first raises error `3`, the
orchestrator never invokes the second failure hook and propagates error `3`
raised by the failure hook — not the original error `7` — refuting both
parts of the claim. -/
theorem failure_hooks_not_best_effort :
    calverRelease false true
        { verifyConditions := [⟨some 7, none⟩],
          fail := [⟨some 3, none⟩, ⟨none, none⟩] } =
      ([(Stage.verifyConditions, 0), (Stage.fail, 0)], RunOutcome.failed 3) ∧
    (Stage.fail, 1) ∉ (calverRelease false true
        { verifyConditions := [⟨some 7, none⟩],
          fail := [⟨some 3, none⟩, ⟨none, none⟩] }).1 ∧
    RunOutcome.failed 3 ≠ RunOutcome.failed 7 := by
  decide

/-- C1 (amended): when a lifecycle hook raises, the failure hooks are invoked
in registration order only up to and including the first failure hook that
itself raises; if none raises they are all invoked and the original error
propagates to the caller, and otherwise the first failure-hook error
propagates instead of the original. -/
theorem failPath_characterization (trace : List (Stage × Nat))
    (plugins : PluginCollection) (orig : Err) :
    (failPath trace plugins orig).2 =
      RunOutcome.failed (((firstFailure plugins.fail).map Prod.snd).getD orig) ∧
    (failPath trace plugins orig).1 =
      trace ++ (List.range (invokedCount plugins.fail)).map (fun i => (Stage.fail, i)) := by
  unfold failPath
  rcases hf : runHooks Stage.fail plugins.fail 0 with ⟨tf, rf, ef⟩
  have herr := runHooks_err_eq Stage.fail plugins.fail 0
  have htr := runHooks_trace_eq Stage.fail plugins.fail 0
  rw [hf] at herr htr
  simp only at herr htr
  constructor
  · rw [herr]
  · rw [htr]
    simp

/-- C9: in a dry run the orchestrator never invokes a `prepare`, `publish` or
`success` hook, and when the run reaches and completes note generation (no
hook of `verifyConditions`, `verifyRelease` or `generateNotes` raises, and a
release is due) it returns the dry-run preview. -/
theorem dryRun_stops_after_notes (plugins : PluginCollection) :
    (∀ shouldRelease : Bool, ∀ ev ∈ (calverRelease true shouldRelease plugins).1,
      ev.1 ≠ Stage.prepare ∧ ev.1 ≠ Stage.publish ∧ ev.1 ≠ Stage.success) ∧
    ((∀ hk ∈ plugins.verifyConditions, hk.outcome = none) →
     (∀ hk ∈ plugins.verifyRelease, hk.outcome = none) →
     (∀ hk ∈ plugins.generateNotes, hk.outcome = none) →
     ∃ notes, (calverRelease true true plugins).2 = RunOutcome.dryRunPreview notes) := by
  rcases h1 : runHooks Stage.verifyConditions plugins.verifyConditions 0 with ⟨t1, r1, e1⟩
  rcases h2 : runHooks Stage.verifyRelease plugins.verifyRelease 0 with ⟨t2, r2, e2⟩
  rcases h3 : runHooks Stage.generateNotes plugins.generateNotes 0 with ⟨t3, r3, e3⟩
  rcases hfl : runHooks Stage.fail plugins.fail 0 with ⟨tfl, rfl', efl⟩
  have s1 := trace_stage_eq h1
  have s2 := trace_stage_eq h2
  have s3 := trace_stage_eq h3
  have sfl := trace_stage_eq hfl
  constructor
  · intro sr ev hev
    simp only [calverRelease, h1, h2, h3] at hev
    have hstage : ev.1 = Stage.verifyConditions ∨ ev.1 = Stage.verifyRelease ∨
        ev.1 = Stage.generateNotes ∨ ev.1 = Stage.fail := by
      cases e1 with
      | some e =>
        simp only [failPath, hfl] at hev
        rw [List.mem_append] at hev
        cases hev with
        | inl h => exact Or.inl (s1 ev h)
        | inr h => exact Or.inr (Or.inr (Or.inr (sfl ev h)))
      | none =>
        cases sr with
        | false =>
          simp only [Bool.not_false, if_true] at hev
          exact Or.inl (s1 ev hev)
        | true =>
          simp only [Bool.not_true, Bool.false_eq_true, if_false] at hev
          cases e2 with
          | some e =>
            simp only [failPath, hfl] at hev
            rw [List.mem_append, List.mem_append] at hev
            rcases hev with (h | h) | h
            · exact Or.inl (s1 ev h)
            · exact Or.inr (Or.inl (s2 ev h))
            · exact Or.inr (Or.inr (Or.inr (sfl ev h)))
          | none =>
            cases e3 with
            | some e =>
              simp only [failPath, hfl] at hev
              rw [List.mem_append, List.mem_append, List.mem_append] at hev
              rcases hev with ((h | h) | h) | h
              · exact Or.inl (s1 ev h)
              · exact Or.inr (Or.inl (s2 ev h))
              · exact Or.inr (Or.inr (Or.inl (s3 ev h)))
              · exact Or.inr (Or.inr (Or.inr (sfl ev h)))
            | none =>
              simp only [if_true] at hev
              rw [List.mem_append, List.mem_append] at hev
              rcases hev with (h | h) | h
              · exact Or.inl (s1 ev h)
              · exact Or.inr (Or.inl (s2 ev h))
              · exact Or.inr (Or.inr (Or.inl (s3 ev h)))
    rcases hstage with h | h | h | h <;> rw [h] <;> exact ⟨by simp, by simp, by simp⟩
  · intro hok1 hok2 hok3
    have he1 := err_none_of_all_ok h1 hok1
    have he2 := err_none_of_all_ok h2 hok2
    have he3 := err_none_of_all_ok h3 hok3
    subst he1 he2 he3
    simp only [calverRelease, h1, h2, h3, Bool.not_true, if_false, if_true]
    exact ⟨_, rfl⟩

/-- C9 (witness): a concrete dry run with one succeeding hook per stage
returns the preview. -/
theorem dryRun_stops_after_notes_witness :
    ∃ notes, (calverRelease true true
      { verifyConditions := [⟨none, none⟩],
        verifyRelease := [⟨none, none⟩],
        generateNotes := [⟨none, some "notes"⟩],
        prepare := [⟨none, none⟩],
        publish := [⟨none, none⟩],
        success := [⟨none, none⟩] }).2 = RunOutcome.dryRunPreview notes :=
  (dryRun_stops_after_notes _).2 (by decide) (by decide) (by decide)

/-- C8 (counterexample): the mapper attributes `feat(packages): x` to the
package `alpha` solely because the scope `"packages"` is a substring of its
path `"packages/alpha"`, although neither the package name `"alpha"` nor the
path basename `"alpha"` matches the scope as a substring in either direction
— refuting "attributed only to packages whose name or path-basename matches
that scope". -/
theorem scope_attribution_by_path_substring :
    getChangedPackages [alphaPkg, betaPkg] [] "abc1234 feat(packages): x" = [alphaPkg] ∧
    jsIncludes alphaPkg.name "packages" = false ∧
    jsIncludes "packages" alphaPkg.name = false ∧
    pathBasename alphaPkg.path ≠ "packages" ∧
    jsIncludes (pathBasename alphaPkg.path) "packages" = false ∧
    jsIncludes "packages" (pathBasename alphaPkg.path) = false := by
  decide

/-- C8 (amended): a scoped commit is attributed by the mapper only to a
package whose name contains the scope, whose path contains the scope, or
whose path basename equals the scope; the classifier processes an unscoped
commit identically for every package under analysis (broad-match); and
Scenario E holds: for packages {core, ui} and the single commit
`feat(core): x`, the mapper selects {core} only and the analysis for `ui` is
the `none` value. -/
theorem scoped_commit_attribution :
    (∀ (packages : List Package) (lines : List String) (pkg : Package),
      pkg ∈ scopePass packages lines [] →
      ∃ c ∈ lines, ∃ scope, scopeOf (dropHash8 c) = some scope ∧
        scopeMatchesPkg pkg scope = true) ∧
    (∀ (packagePath : String) (st : AnalyzeState) (commit : String),
      scopeOf (stripHash commit) = none →
      analyzeCommitStep packagePath st commit = analyzeCommitStep "." st commit) ∧
    (getChangedPackages [corePkg, uiPkg] [] "abc1234 feat(core): x" = [corePkg] ∧
     analyzeCommits "abc1234 feat(core): x" "packages/ui" = none) := by
  refine ⟨?_, ?_, by decide⟩
  · intro packages lines pkg hmem
    cases scopePass_sound packages lines [] pkg hmem with
    | inl h => exact absurd h (by simp)
    | inr h => exact h
  · intro packagePath st commit hnone
    unfold analyzeCommitStep scopeSkips
    simp [hnone]

/-- C8 (witness): the classifier treats an unscoped commit for the package
at `packages/ui` exactly as in single-package mode. -/
theorem scoped_commit_attribution_witness :
    analyzeCommitStep "packages/ui" {} "abc1234 feat: y" =
      analyzeCommitStep "." {} "abc1234 feat: y" :=
  scoped_commit_attribution.2.1 "packages/ui" {} "abc1234 feat: y" (by decide)

/-- C4: whenever no existing tag matches the target year-month and active
format, or a manual bump was flagged, or an auto month roll occurred, the
resolver emits the first release of the month: `YY.MM.1` under the
three-part format and `YY.MM.0.1` under the four-part format. -/
theorem generateCalVerVersionFrom_first_release
    (rt : ReleaseType) (isNpm : Bool) (pv : Option String) (tags : List String)
    (auto : Bool) (cur : String)
    (h : ((monthTags isNpm (computeTarget pv auto cur tags).targetYearMonth tags).isEmpty
          || (computeTarget pv auto cur tags).isManualBump
          || (computeTarget pv auto cur tags).isAutoMonthUpdate) = true) :
    generateCalVerVersionFrom rt isNpm pv tags auto cur =
      (computeTarget pv auto cur tags).targetYearMonth ++
        (if isNpm then ".1" else ".0.1") := by
  simp only [generateCalVerVersionFrom, h, if_true]
  cases isNpm <;> simp

/-- C4 (witness): Scenario A — no tags, no declared version, three-part
format, current month `25.08` gives `"25.08.1"`; Scenario D —
`autoUpdateMonth` with declared `"25.07.0.3"` and current month `25.08`
gives `"25.08.0.1"`. -/
theorem generateCalVerVersionFrom_first_release_witness :
    generateCalVerVersionFrom .patch true none [] false "25.08" = "25.08.1" ∧
    generateCalVerVersionFrom .patch false (some "25.07.0.3") [] true "25.08" = "25.08.0.1" :=
  ⟨generateCalVerVersionFrom_first_release .patch true none [] false "25.08" (by decide),
   generateCalVerVersionFrom_first_release .patch false (some "25.07.0.3") [] true "25.08"
     (by decide)⟩

/-- C5: with a candidate tag present and neither manual bump nor auto-roll,
the resolver increments from the newest candidate tag: the three-part format
increments its single counter regardless of release type; the four-part
format increments minor and resets patch to one for minor or major, and
increments patch with minor unchanged otherwise. -/
theorem generateCalVerVersionFrom_increment
    (rt : ReleaseType) (isNpm : Bool) (pv : Option String) (tags : List String)
    (auto : Bool) (cur : String)
    (hne : (monthTags isNpm (computeTarget pv auto cur tags).targetYearMonth tags).isEmpty = false)
    (hm : (computeTarget pv auto cur tags).isManualBump = false)
    (ha : (computeTarget pv auto cur tags).isAutoMonthUpdate = false) :
    generateCalVerVersionFrom rt isNpm pv tags auto cur =
      (if isNpm then
        (computeTarget pv auto cur tags).targetYearMonth ++ "." ++
          natToStr (numPart
            ((monthTags isNpm (computeTarget pv auto cur tags).targetYearMonth tags).headD "")
            2 + 1)
       else if rt == ReleaseType.minor || rt == ReleaseType.major then
        (computeTarget pv auto cur tags).targetYearMonth ++ "." ++
          natToStr (numPart
            ((monthTags isNpm (computeTarget pv auto cur tags).targetYearMonth tags).headD "")
            2 + 1) ++ "." ++ natToStr 1
       else
        (computeTarget pv auto cur tags).targetYearMonth ++ "." ++
          natToStr (numPart
            ((monthTags isNpm (computeTarget pv auto cur tags).targetYearMonth tags).headD "")
            2) ++ "." ++ natToStr (numPart
            ((monthTags isNpm (computeTarget pv auto cur tags).targetYearMonth tags).headD "")
            3 + 1)) := by
  simp only [generateCalVerVersionFrom, hne, hm, ha, Bool.or_false, Bool.false_eq_true,
    if_false]

/-- C5 (witness): Scenario B — three-part tag `25.07.3`, release type patch
gives `"25.07.4"`; Scenario C — four-part tag `25.07.0.1`, release type
minor gives `"25.07.1.1"`, not `"25.07.1.0"`. -/
theorem generateCalVerVersionFrom_increment_witness :
    (generateCalVerVersionFrom .patch true (some "25.07.3") ["25.07.3"] false "25.07" =
      "25.07.4" ∧
     generateCalVerVersionFrom .minor false (some "25.07.0.1") ["25.07.0.1"] false "25.07" =
      "25.07.1.1") ∧
    "25.07.1.1" ≠ "25.07.1.0" :=
  ⟨⟨generateCalVerVersionFrom_increment .patch true (some "25.07.3") ["25.07.3"] false "25.07"
      (by decide) (by decide) (by decide),
    generateCalVerVersionFrom_increment .minor false (some "25.07.0.1") ["25.07.0.1"] false
      "25.07" (by decide) (by decide) (by decide)⟩,
   by decide⟩

/-- C3: the version resolver is deterministic with respect to its declared
inputs.  Two invocations agreeing on the release type, the declared version,
the resolved version format, the extracted tag history, the
`autoUpdateMonth` flag and the current date's year-month return the same
version string, regardless of every other configuration field (e.g.
`dryRun`, `branches`, differing plugin lists resolving to the same format)
and of tag-list or date representations with the same extracted values. -/
theorem generateCalVerVersion_deterministic (rt : ReleaseType)
    (p1 p2 : String) (o1 o2 : Options) (pv : Option String)
    (t1 t2 : List String) (d1 d2 : DateYM)
    (hfmt : determineVersionFormat o1 = determineVersionFormat o2)
    (hauto : o1.autoUpdateMonth = o2.autoUpdateMonth)
    (htags : extractExistingTags (packageNameOf p1) t1 = extractExistingTags (packageNameOf p2) t2)
    (hdate : currentYearMonthOf d1 = currentYearMonthOf d2) :
    generateCalVerVersion rt p1 o1 pv t1 d1 = generateCalVerVersion rt p2 o2 pv t2 d2 := by
  simp only [generateCalVerVersion]
  rw [hfmt, hauto, htags, hdate]

/-- C3 (witness): two runs differing in `dryRun`, `branches`, plugin lists,
raw tag noise and the date representation, but agreeing on the declared
inputs, return the same version. -/
theorem generateCalVerVersion_deterministic_witness :
    generateCalVerVersion .patch "."
        { versionFormat := none, plugins := some defaultPlugins,
          autoUpdateMonth := false, dryRun := true, branches := [] }
        (some "25.07.3") ["v-25.07.3", "noise"] ⟨2025, 7⟩ =
      generateCalVerVersion .patch "."
        { versionFormat := some "auto", plugins := some [.str "x-npm-y"],
          autoUpdateMonth := false, dryRun := false, branches := ["main"] }
        (some "25.07.3") ["v-25.07.3"] ⟨3025, 7⟩ :=
  generateCalVerVersion_deterministic .patch "." "." _ _ (some "25.07.3") _ _ _ _
    (by decide) (by decide) (by decide) (by decide)

/-- C2 (counterexample): on a manual bump the resolver re-emits a version
whose tuple is already present among the existing tags of the target
year-month and format: with descending tag history
`["25.08.0.5", "25.07.0.1"]`, declared version `"25.07.0.5"` and
`autoUpdateMonth` disabled, it emits `"25.07.0.1"`, a tuple already present
for `25.07` in the four-part format. -/
theorem version_reuse_on_manual_bump :
    generateCalVerVersionFrom .patch false (some "25.07.0.5")
        ["25.08.0.5", "25.07.0.1"] false "25.08" = "25.07.0.1" ∧
    "25.07.0.1" ∈ monthTags false
      (computeTarget (some "25.07.0.5") false "25.08"
        ["25.08.0.5", "25.07.0.1"]).targetYearMonth
      ["25.08.0.5", "25.07.0.1"] ∧
    (computeTarget (some "25.07.0.5") false "25.08"
        ["25.08.0.5", "25.07.0.1"]).isManualBump = true := by
  decide

/-- C2 (amended): assuming the tag history is sorted descending (the head of
the candidate list dominates every candidate under tuple order, as produced
by `git tag -l --sort=-version:refname`), and provided that no manual bump
or auto month roll coincides with existing candidate tags for the target
(year-month, format), the emitted version's (minor, patch) tuple is strictly
greater under tuple order than that of every existing candidate tag — so
appending the resolver's outputs to the history yields a strictly increasing
tuple sequence that never reuses a present tuple. -/
theorem generateCalVerVersionFrom_monotone
    (rt : ReleaseType) (isNpm : Bool) (pv : Option String) (tags : List String)
    (auto : Bool) (cur : String)
    (hdesc : ∀ c ∈ monthTags isNpm (computeTarget pv auto cur tags).targetYearMonth tags,
      tupleLe (tagTuple isNpm c)
        (tagTuple isNpm
          ((monthTags isNpm (computeTarget pv auto cur tags).targetYearMonth tags).headD "")))
    (hsafe : monthTags isNpm (computeTarget pv auto cur tags).targetYearMonth tags = []
      ∨ ((computeTarget pv auto cur tags).isManualBump = false ∧
         (computeTarget pv auto cur tags).isAutoMonthUpdate = false)) :
    ∃ p : Nat × Nat,
      generateCalVerVersionFrom rt isNpm pv tags auto cur =
        (if isNpm then
          (computeTarget pv auto cur tags).targetYearMonth ++ "." ++ natToStr p.2
         else
          (computeTarget pv auto cur tags).targetYearMonth ++ "." ++ natToStr p.1 ++ "." ++
            natToStr p.2) ∧
      ∀ c ∈ monthTags isNpm (computeTarget pv auto cur tags).targetYearMonth tags,
        tupleLt (tagTuple isNpm c) p := by
  by_cases hcond : ((monthTags isNpm (computeTarget pv auto cur tags).targetYearMonth tags).isEmpty
      || (computeTarget pv auto cur tags).isManualBump
      || (computeTarget pv auto cur tags).isAutoMonthUpdate) = true
  · have hempty : monthTags isNpm (computeTarget pv auto cur tags).targetYearMonth tags = [] := by
      rcases hsafe with h | ⟨hm, ha⟩
      · exact h
      · rw [hm, ha] at hcond
        simp only [Bool.or_false] at hcond
        exact List.isEmpty_iff.mp hcond
    refine ⟨(0, 1), ?_, ?_⟩
    · simp only [generateCalVerVersionFrom, hcond, if_true]
      cases isNpm with
      | false =>
        simp only [Bool.false_eq_true, if_false, string_append_assoc]
        rfl
      | true =>
        simp only [if_true, string_append_assoc]
        rfl
    · intro c hc
      rw [hempty] at hc
      simp at hc
  · have hcond' : ((monthTags isNpm (computeTarget pv auto cur tags).targetYearMonth tags).isEmpty
        || (computeTarget pv auto cur tags).isManualBump
        || (computeTarget pv auto cur tags).isAutoMonthUpdate) = false := by
      cases hcase : ((monthTags isNpm (computeTarget pv auto cur tags).targetYearMonth tags).isEmpty
          || (computeTarget pv auto cur tags).isManualBump
          || (computeTarget pv auto cur tags).isAutoMonthUpdate) with
      | true => exact absurd hcase hcond
      | false => rfl
    rw [Bool.or_eq_false_iff, Bool.or_eq_false_iff] at hcond'
    obtain ⟨⟨hne, hm⟩, ha⟩ := hcond'
    cases isNpm with
    | true =>
      refine ⟨(0, numPart
          ((monthTags true (computeTarget pv auto cur tags).targetYearMonth tags).headD "") 2 + 1),
        ?_, ?_⟩
      · simp only [generateCalVerVersionFrom, hne, hm, ha, Bool.or_false, Bool.false_eq_true,
          if_false]
        rfl
      · intro c hc
        have hle := hdesc c hc
        simp [tagTuple, tupleLe] at hle
        simp [tagTuple, tupleLt]
        omega
    | false =>
      by_cases hrt : (rt == ReleaseType.minor || rt == ReleaseType.major) = true
      · refine ⟨(numPart
            ((monthTags false (computeTarget pv auto cur tags).targetYearMonth tags).headD "")
            2 + 1, 1), ?_, ?_⟩
        · simp only [generateCalVerVersionFrom, hne, hm, ha, Bool.or_false, Bool.false_eq_true,
            if_false, hrt, if_true]
        · intro c hc
          have hle := hdesc c hc
          simp [tagTuple, tupleLe] at hle
          simp [tagTuple, tupleLt]
          omega
      · have hrt' : (rt == ReleaseType.minor || rt == ReleaseType.major) = false := by
          cases hcase : (rt == ReleaseType.minor || rt == ReleaseType.major) with
          | true => exact absurd hcase hrt
          | false => rfl
        refine ⟨(numPart
            ((monthTags false (computeTarget pv auto cur tags).targetYearMonth tags).headD "") 2,
          numPart
            ((monthTags false (computeTarget pv auto cur tags).targetYearMonth tags).headD "")
            3 + 1), ?_, ?_⟩
        · simp only [generateCalVerVersionFrom, hne, hm, ha, Bool.or_false, Bool.false_eq_true,
            if_false, hrt', if_false]
        · intro c hc
          have hle := hdesc c hc
          simp [tagTuple, tupleLe] at hle
          simp [tagTuple, tupleLt]
          omega

/-- C2 (witness): four-part format, descending history
`["25.07.1.1", "25.07.0.2"]`, declared `"25.07.0.2"`, release type patch —
the emitted tuple strictly dominates every candidate tuple. -/
theorem generateCalVerVersionFrom_monotone_witness :
    ∃ p : Nat × Nat,
      generateCalVerVersionFrom .patch false (some "25.07.0.2")
          ["25.07.1.1", "25.07.0.2"] false "25.07" =
        "25.07" ++ "." ++ natToStr p.1 ++ "." ++ natToStr p.2 ∧
      ∀ c ∈ monthTags false "25.07" ["25.07.1.1", "25.07.0.2"],
        tupleLt (tagTuple false c) p :=
  generateCalVerVersionFrom_monotone .patch false (some "25.07.0.2")
    ["25.07.1.1", "25.07.0.2"] false "25.07" (by decide) (by decide)

end CalverRelease
